import Mathlib

/-!
# Verification of the `cosmicexcuse` excuse-generator core

A shallow embedding, in Lean 4, of the core of the `cosmicexcuse` Python
package (severity analyzer, Markov chain, excuse assembler, leaderboard),
together with theorems settling a list of specification claims.

Modelling conventions, used throughout:

* Python strings are embedded as `List Char`; `str.lower` is `Char.toLower`
  mapped over the list (faithful for the ASCII data the program manipulates).
* Python machine integers are `Nat`/`Int` (Python ints are unbounded, so no
  wrap-around modelling is needed); the one float-valued score in the
  analyzer accumulates multiples of `0.5`, which IEEE doubles represent
  exactly, so it is embedded as twice its value in `Nat`.
* Fallible code (Python exceptions: `IndexError` from `random.choice([])`
  or `corpus[i][0]`, `KeyError`, unbounded `while` loops) is embedded with
  `Option`, `none` marking a raise / divergence.
* The global `random` module is embedded by explicit state passing: a state
  is a stream of raw pseudo-random words plus a cursor, `random.seed(n)`
  installs the stream determined by `n` (the Mersenne-Twister expansion is
  abstracted as a parameter `seedFun : Nat → Nat → Nat`), and each primitive
  draw (`random.choice`, `random.random`) consumes one word.
* `re.search` with `re.IGNORECASE` is embedded per pattern of the analyzer's
  fixed pattern table: a plain pattern is a case-insensitive substring test,
  `!!!+`/`!!` are substring tests, `\bW\b` is a word-boundary test
  (`\w` = alphanumeric or underscore), and `A.*B` searches for `A` followed
  by `B` with no newline in between (`.` does not match newline).
-/

namespace CosmicExcuse

/-! ## Python string primitives -/

/-- Python `str.isspace` / `str.split()` whitespace set (ASCII part). -/
def pyIsSpace (c : Char) : Bool :=
  c == ' ' || c == '\t' || c == '\n' || c == '\r' || c == '\x0b' || c == '\x0c'

/-- Python `str.lower` on an ASCII string. -/
def lowerL (l : List Char) : List Char :=
  l.map Char.toLower

/-- `startsWithL p l`: `p` is a prefix of `l`. -/
def startsWithL : List Char → List Char → Bool
  | [], _ => true
  | _ :: _, [] => false
  | p :: ps, c :: cs => p == c && startsWithL ps cs

/-- Python `p in l` substring test. -/
def hasSubstr (p : List Char) : List Char → Bool
  | [] => startsWithL p []
  | l@(_ :: t) => startsWithL p l || hasSubstr p t

/-- Accumulator loop for `splitWs` (current word is kept reversed). -/
def splitWsAux (cur : List Char) : List Char → List (List Char)
  | [] => if cur.isEmpty then [] else [cur.reverse]
  | c :: t =>
    if pyIsSpace c then
      if cur.isEmpty then splitWsAux [] t else cur.reverse :: splitWsAux [] t
    else splitWsAux (c :: cur) t

/-- Python `str.split()` with no argument: split on whitespace runs,
dropping empty pieces. -/
def splitWs (l : List Char) : List (List Char) :=
  splitWsAux [] l

/-- A regex `\w` word character (ASCII): alphanumeric or underscore. -/
def isWordChar (c : Char) : Bool :=
  c.isAlphanum || c == '_'

/-- A word boundary holds before the current position (`prev` is the
preceding character, `none` at the start of the string). -/
def boundaryOk : Option Char → Bool
  | none => true
  | some p => !isWordChar p

/-- A word boundary holds at the start of the remaining suffix. -/
def endBoundary : List Char → Bool
  | [] => true
  | d :: _ => !isWordChar d

/-- `re.search(r"\bW\b", ·)`: scan for an occurrence of `W` delimited by
word boundaries. -/
def wordScan (W : List Char) : Option Char → List Char → Bool
  | _, [] => false
  | prev, l@(c :: t) =>
    (boundaryOk prev && startsWithL W l && endBoundary (l.drop W.length)) ||
      wordScan W (some c) t

/-- `re.search(r"\bW", ·)`: scan for an occurrence of `W` preceded by a word
boundary. -/
def startScan (W : List Char) : Option Char → List Char → Bool
  | _, [] => false
  | prev, l@(c :: t) =>
    (boundaryOk prev && startsWithL W l) || startScan W (some c) t

/-- `re.search(r"\bWARN(ING)?\b", ·)` (case already lowered by the caller):
`warn` preceded by a boundary, followed either by `ing` and a boundary or
directly by a boundary. -/
def warnScan : Option Char → List Char → Bool
  | _, [] => false
  | prev, l@(c :: t) =>
    (boundaryOk prev && startsWithL ("warn".toList) l &&
        ((startsWithL ("ing".toList) (l.drop 4) && endBoundary (l.drop 7)) ||
          endBoundary (l.drop 4))) ||
      warnScan (some c) t

/-- `B` occurs in the list with no newline strictly before it (the `.*` of
`A.*B` must not cross a newline). -/
def afterNoNl (B : List Char) : List Char → Bool
  | [] => startsWithL B []
  | l@(c :: t) => startsWithL B l || (!(c == '\n') && afterNoNl B t)

/-- `re.search(r"A.*B", ·)`: an occurrence of `A` followed, with no newline
in between, by an occurrence of `B`. -/
def dotStarScan (A B : List Char) : List Char → Bool
  | [] => false
  | l@(_ :: t) => (startsWithL A l && afterNoNl B (l.drop A.length)) || dotStarScan A B t

/-! ## `SeverityAnalyzer` (src/cosmicexcuse/analyzer.py)

The analyzer's regex table only uses five shapes of pattern, embedded as a
small datatype so the table stays recognizable. -/

/-- One pattern of `SeverityAnalyzer.severity_patterns`. -/
inductive Pat where
  | sub (s : String)
  | word (s : String)
  | warnPat
  | startsW (s : String)
  | dotStar (a b : String)
deriving DecidableEq

/-- `re.search(pat, message, re.IGNORECASE) is not None` for the five
pattern shapes. -/
def matchPat : Pat → List Char → Bool
  | .sub s, msg => hasSubstr (lowerL s.toList) (lowerL msg)
  | .word s, msg => wordScan (lowerL s.toList) none (lowerL msg)
  | .warnPat, msg => warnScan none (lowerL msg)
  | .startsW s, msg => startScan (lowerL s.toList) none (lowerL msg)
  | .dotStar a b, msg => dotStarScan (lowerL a.toList) (lowerL b.toList) (lowerL msg)

/-- The literal word a pattern must find in the (lowered) message; any
match makes all of its characters occur in the message. -/
def patKey : Pat → List Char
  | .sub s => lowerL s.toList
  | .word s => lowerL s.toList
  | .warnPat => "warn".toList
  | .startsW s => lowerL s.toList
  | .dotStar a _ => lowerL a.toList

/-- `severity_patterns["severe"]`: FATAL, CRITICAL, PANIC, EMERGENCY,
`!!!+`, SYSTEM.*DOWN, KERNEL.*PANIC, SEGMENTATION.*FAULT, CORE.*DUMP. -/
def severePatterns : List Pat :=
  [.sub "FATAL", .sub "CRITICAL", .sub "PANIC", .sub "EMERGENCY", .sub "!!!",
    .dotStar "SYSTEM" "DOWN", .dotStar "KERNEL" "PANIC",
    .dotStar "SEGMENTATION" "FAULT", .dotStar "CORE" "DUMP"]

/-- `severity_patterns["medium"]`: `\bERROR\b`, EXCEPTION, FAILED, `!!`,
`\bFAIL\b`, NULL.*POINTER, STACK.*OVERFLOW, MEMORY.*LEAK. -/
def mediumPatterns : List Pat :=
  [.word "ERROR", .sub "EXCEPTION", .sub "FAILED", .sub "!!", .word "FAIL",
    .dotStar "NULL" "POINTER", .dotStar "STACK" "OVERFLOW", .dotStar "MEMORY" "LEAK"]

/-- `severity_patterns["mild"]`: `\bWARN(ING)?\b`, `\bINFO\b`, DEBUG, NOTICE,
DEPRECATED, TRACE, `\bretry`, pending. -/
def mildPatterns : List Pat :=
  [.warnPat, .word "INFO", .sub "DEBUG", .sub "NOTICE", .sub "DEPRECATED",
    .sub "TRACE", .startsW "retry", .sub "pending"]

/-- `severity_keywords["severe"]`. -/
def severeKeywords : List String :=
  ["fatal", "critical", "crash", "panic", "doom", "catastrophic", "emergency",
    "disaster", "meltdown", "apocalypse", "dead", "explosion", "fire", "burning",
    "destroyed", "corrupted", "segmentation", "core dump", "kernel panic"]

/-- `severity_keywords["medium"]`. -/
def mediumKeywords : List String :=
  ["error", "fail", "failed", "exception", "problem", "issue", "broken",
    "invalid", "denied", "refused", "timeout", "overflow", "leak", "violation",
    "conflict", "missing", "undefined", "null pointer", "not found"]

/-- `severity_keywords["mild"]`. -/
def mildKeywords : List String :=
  ["warning", "warn", "deprecated", "notice", "info", "debug", "trace", "minor",
    "slight", "temporary", "recoverable", "retry", "pending", "delayed",
    "obsolete", "legacy"]

/-- Number of patterns of a tier's table matching the message. -/
def patternCount (pats : List Pat) (msg : List Char) : Nat :=
  pats.countP (fun p => matchPat p msg)

/-- Some pattern of a tier's table matches the message. -/
def patternAny (pats : List Pat) (msg : List Char) : Bool :=
  pats.any (fun p => matchPat p msg)

/-- The pattern score of `_score_patterns`: each hit weighs
severe = 5, medium = 3, mild = 1 (`_pattern_weights`). -/
def patternScore (msg : List Char) : Nat :=
  5 * patternCount severePatterns msg + 3 * patternCount mediumPatterns msg +
    1 * patternCount mildPatterns msg

/-- `_pick_top_severity` over the hit tiers: the tiers are scanned in dict
order (severe, medium, mild) and the highest-ordinal hit tier is kept. -/
def topPattern (msg : List Char) : Option String :=
  if patternAny severePatterns msg then some "severe"
  else if patternAny mediumPatterns msg then some "medium"
  else if patternAny mildPatterns msg then some "mild"
  else none

/-- Number of keywords of one tier list occurring in the lowered message. -/
def keywordCount (kws : List String) (msgLower : List Char) : Nat :=
  kws.countP (fun kw => hasSubstr kw.toList msgLower)

/-- `_score_keywords`: keyword hits weigh severe = 3, medium = 2, mild = 1
(`_keyword_weights`). -/
def keywordScore (msgLower : List Char) : Nat :=
  3 * keywordCount severeKeywords msgLower + 2 * keywordCount mediumKeywords msgLower +
    1 * keywordCount mildKeywords msgLower

/-- `_score_exclamations`: 0/1/2/3 points for 0/1/2/≥3 `!` characters. -/
def exclamScore (msg : List Char) : Nat :=
  let n := msg.count '!'
  if 3 ≤ n then 3 else if n == 2 then 2 else if n == 1 then 1 else 0

/-- `_uppercase_exclusions`. -/
def uppercaseExclusions : List (List Char) :=
  ["CPU".toList, "RAM".toList, "API".toList, "URL".toList, "ID".toList]

/-- Python `str.isupper`: at least one cased character, and every cased
character uppercase (ASCII: cased = letter). -/
def pyIsUpper (w : List Char) : Bool :=
  w.any Char.isAlpha && w.all (fun c => !c.isAlpha || c.isUpper)

/-- A token counted by `_score_uppercase`: fully uppercase, longer than two
characters, not an excluded acronym. -/
def shoutWord (w : List Char) : Bool :=
  pyIsUpper w && decide (2 < w.length) && !uppercaseExclusions.contains w

/-- Number of shouted words; each adds `0.5` to the score in
`_score_uppercase`. -/
def uppercaseCount (msg : List Char) : Nat :=
  (splitWs msg).countP shoutWord

/-- `SeverityAnalyzer.analyze`. The running float total is represented
doubled (`total2` below is exactly twice the Python float score, which is a
sum of integers and `0.5`-steps, all exact in IEEE doubles), so the final
thresholds `≥ 8` / `≥ 4` become `≥ 16` / `≥ 8`. -/
def analyze (msg : List Char) : String :=
  if msg = [] then "mild"
  else
    let ps := patternScore msg
    let top := topPattern msg
    if top = some "severe" ∧ 5 ≤ ps then "severe"
    else if top = some "mild" ∧ ps ≤ 2 then "mild"
    else
      let total2 := 2 * ps + 2 * keywordScore (lowerL msg) + 2 * exclamScore msg +
        uppercaseCount msg
      if 16 ≤ total2 then "severe" else if 8 ≤ total2 then "medium" else "mild"

/-! ## Quality score (`ExcuseGenerator._calculate_quality_score`) -/

/-- `bonus_words` of `_calculate_quality_score`. -/
def bonusWords : List String :=
  ["quantum", "cosmic", "AI", "blockchain", "neural"]

/-- `ExcuseGenerator._calculate_quality_score`:
`score = len(text) * seed % 100`, then `score = min(100, score + 5)` for each
bonus word found case-insensitively, then `max(1, min(100, score))`. -/
def calculateQualityScore (text : List Char) (seed : Nat) : Nat :=
  let score := text.length * seed % 100
  let score := bonusWords.foldl
    (fun s w => if hasSubstr (lowerL w.toList) (lowerL text) then min 100 (s + 5) else s)
    score
  max 1 (min 100 score)

/-- Number of bonus words occurring case-insensitively in the text. -/
def bonusCount (text : List Char) : Nat :=
  bonusWords.countP (fun w => hasSubstr (lowerL w.toList) (lowerL text))

/-- Modelled from the spec (for comparison only): the claimed score formula
`clamp(1, 100, (len(text) * seed) mod 100)` with the lower clamp applied
*before* the capped `+5` bonus additions. -/
def qualityScoreSpecClaim (text : List Char) (seed : Nat) : Nat :=
  let score := max 1 (min 100 (text.length * seed % 100))
  bonusWords.foldl
    (fun s w => if hasSubstr (lowerL w.toList) (lowerL text) then min 100 (s + 5) else s)
    score

/-! ## The shared random generator

The global `random` module is a state: a stream of raw words and a cursor.
`random.seed(n)` replaces the whole state by the stream `seedFun n` at
cursor `0`; each primitive draw consumes one word. `random.choice(l)`
returns `l[word % len(l)]` and raises (here: `none`) on an empty sequence. -/

/-- State of the shared `random` module. -/
structure RNG where
  stream : Nat → Nat
  pos : Nat

/-- `random.seed(n)` under the stream family `seedFun`. -/
def RNG.seedWith (seedFun : Nat → Nat → Nat) (n : Nat) : RNG :=
  ⟨seedFun n, 0⟩

/-- Draw one raw word (models `random.random()`, kept as the raw word). -/
def RNG.next (r : RNG) : Nat × RNG :=
  (r.stream r.pos, ⟨r.stream, r.pos + 1⟩)

/-- `random.choice(l)`: `none` models the `IndexError` on an empty list. -/
def choice {α : Type} (r : RNG) (l : List α) : Option (α × RNG) :=
  match l.get? (r.stream r.pos % l.length) with
  | none => none
  | some a => some (a, ⟨r.stream, r.pos + 1⟩)

/-! ## `MarkovChain` (src/cosmicexcuse/markov.py) -/

/-- State of a `MarkovChain`: the transition table is an insertion-ordered
association list (a Python dict), `starters` the list of starter keys. -/
structure MarkovState where
  order : Nat
  chain : List (List String × List String)
  starters : List (List String)

/-- Keys of the transition table in insertion order
(`list(self.chain.keys())`). -/
def chainKeys (c : List (List String × List String)) : List (List String) :=
  c.map Prod.fst

/-- `self.chain[key].append(value)` on the `defaultdict(list)`. -/
def chainAppend (c : List (List String × List String)) (k : List String) (v : String) :
    List (List String × List String) :=
  match c with
  | [] => [(k, [v])]
  | (k', vs) :: t => if k' = k then (k', vs ++ [v]) :: t else (k', vs) :: chainAppend t k v

/-- Dict lookup (`current in self.chain` / `self.chain[current]`). -/
def chainFind (c : List (List String × List String)) (k : List String) :
    Option (List String) :=
  match c with
  | [] => none
  | (k', vs) :: t => if k' = k then some vs else chainFind t k

/-- The loop body of `MarkovChain.train` for indices `i, i+1, ...` while
`cnt` iterations remain.  The starter test evaluates `corpus[i][0].isupper()`
only when `i ≠ 0` (Python's `or` short-circuits), and indexing an empty
token there raises — modelled by `none`. -/
def trainLoop (corpus : List String) (order : Nat) :
    Nat → Nat → List (List String × List String) → List (List String) →
    Option (List (List String × List String) × List (List String))
  | _, 0, c, s => some (c, s)
  | i, cnt + 1, c, s =>
    match corpus.get? (i + order) with
    | none => none
    | some v =>
      let key := (corpus.drop i).take order
      let c' := chainAppend c key v
      let starterTest : Option Bool :=
        if i = 0 then some true
        else
          match corpus.get? i with
          | none => none
          | some w =>
            match w.toList.head? with
            | none => none
            | some ch => some ch.isUpper
      match starterTest with
      | none => none
      | some b => trainLoop corpus order (i + 1) cnt c' (if b then s ++ [key] else s)

/-- `MarkovChain.train`: returns early when the corpus is shorter than
`order + 1`; otherwise scans `len(corpus) - order` windows, then falls back
to all keys as starters when none were recorded and the table is
non-empty. -/
def train (st : MarkovState) (corpus : List String) : Option MarkovState :=
  if corpus.length < st.order + 1 then some st
  else
    match trainLoop corpus st.order 0 (corpus.length - st.order) st.chain st.starters with
    | none => none
    | some (c, s) =>
      let s := if s = [] ∧ c ≠ [] then chainKeys c else s
      some { st with chain := c, starters := s }

/-- Choice of the initial key of `MarkovChain.generate`: keys containing
the start word if any, else a starter, else any key. -/
def mgenStart (st : MarkovState) (rng : RNG) (startWord : Option String) :
    Option (List String × RNG) :=
  match startWord with
  | some w =>
    let matching := (chainKeys st.chain).filter (fun k => w ∈ k)
    if matching.isEmpty then
      if st.starters.isEmpty then choice rng (chainKeys st.chain)
      else choice rng st.starters
    else choice rng matching
  | none =>
    if st.starters.isEmpty then choice rng (chainKeys st.chain)
    else choice rng st.starters

/-- The `for _ in range(length - self.order)` loop of `MarkovChain.generate`:
follow a successor when the current key is in the table (sliding the key
window), otherwise restart from a random key (the dead-end branch), breaking
if the table is empty. -/
def mgenLoop (st : MarkovState) :
    Nat → List String → List String → RNG → Option (List String × RNG)
  | 0, _, res, rng => some (res, rng)
  | n + 1, cur, res, rng =>
    match chainFind st.chain cur with
    | some succs =>
      match choice rng succs with
      | none => none
      | some (w, rng') =>
        let cur' := if st.order = 1 then [w] else cur.drop 1 ++ [w]
        mgenLoop st n cur' (res ++ [w]) rng'
    | none =>
      if st.chain.isEmpty then some (res, rng)
      else
        match choice rng (chainKeys st.chain) with
        | none => none
        | some (k, rng') => mgenLoop st n k res rng'

/-- `MarkovChain.generate` instrumented to return the token list the code
joins (the fallback string `"technical difficulties"` is the join of its two
tokens). -/
def mgenTokens (st : MarkovState) (rng : RNG) (length : Nat) (startWord : Option String) :
    Option (List String × RNG) :=
  if st.chain.isEmpty then some (["technical", "difficulties"], rng)
  else
    match mgenStart st rng startWord with
    | none => none
    | some (cur, rng1) => mgenLoop st (length - st.order) cur cur rng1

/-- `" ".join(result)`. -/
def joinSpace (l : List String) : String :=
  String.intercalate " " l

/-- `MarkovChain.generate`: the whitespace-joined generated text. -/
def mgen (st : MarkovState) (rng : RNG) (length : Nat) (startWord : Option String) :
    Option (String × RNG) :=
  (mgenTokens st rng length startWord).map (fun p => (joinSpace p.1, p.2))

/-- The state invariant `MarkovChain.train` establishes: every key has at
least one successor and length `order`, and every starter is a key. -/
def MarkovInv (st : MarkovState) : Prop :=
  (∀ kv ∈ st.chain, kv.2 ≠ [] ∧ kv.1.length = st.order) ∧
    ∀ k ∈ st.starters, k ∈ chainKeys st.chain

/-! ## `ExcuseGenerator` (src/cosmicexcuse/generator.py) -/

/-- A value of the loaded corpus dict `self.data`: every category maps to a
phrase list except `intensifiers`, which may map to a severity-keyed dict. -/
inductive Entry where
  | strs (l : List String)
  | tiers (m : List (String × List String))

/-- The loaded corpus: an insertion-ordered dict of categories. -/
def Corpus := List (String × Entry)

/-- `self.data[k]` lookup. -/
def lookupEntry (data : Corpus) (k : String) : Option Entry :=
  match data with
  | [] => none
  | (k', v) :: t => if k' = k then some v else lookupEntry t k

/-- `list(self.data.keys())`. -/
def dataKeys (data : Corpus) : List String :=
  data.map Prod.fst

/-- The reserved names excluded from primary/secondary selection. -/
def reservedCategories : List String :=
  ["recommendations", "connectors", "intensifiers"]

/-- Environment abstracting the impure ingredients of `generate`:
`seedFun` is the stream family installed by `random.seed`, and `hashFn`
models `_generate_quantum_seed` (`int(md5(f"{msg}{time}")[:8], 16)`). -/
structure GenCtx where
  seedFun : Nat → Nat → Nat
  hashFn : String → Nat → Nat

/-- The `while primary_category in [...]` re-roll loop, with explicit fuel
bounding the number of iterations (`none` models non-termination). The
loop guard is tested before consuming fuel, as in the source. -/
def rerollPrimary (keys : List String) : Nat → String → RNG → Option (String × RNG)
  | 0, cat, rng =>
    if cat ∈ reservedCategories then none else some (cat, rng)
  | fuel + 1, cat, rng =>
    if cat ∈ reservedCategories then
      match choice rng keys with
      | none => none
      | some (c, r') => rerollPrimary keys fuel c r'
    else some (cat, rng)

/-- Lookup in the severity-keyed intensifier dict. -/
def lookupTier (m : List (String × List String)) (k : String) : Option (List String) :=
  match m with
  | [] => none
  | (k', v) :: t => if k' = k then some v else lookupTier t k

/-- `ExcuseGenerator._get_intensifier`: `self.data.get('intensifiers', {})`,
then `.get(severity, ['definitely'])` when it is a dict, else
`['definitely']`. -/
def getIntensifier (data : Corpus) (severity : String) (rng : RNG) :
    Option (String × RNG) :=
  let lst :=
    match lookupEntry data "intensifiers" with
    | some (.tiers m) => (lookupTier m severity).getD ["definitely"]
    | _ => ["definitely"]
  choice rng lst

/-- `random.choice` over a category's list of strings; choosing from a dict
value raises in Python (`none`). -/
def choiceEntry (data : Corpus) (k : String) (rng : RNG) : Option (String × RNG) :=
  match lookupEntry data k with
  | some (.strs l) => choice rng l
  | _ => none

/-- `random.choice(self.data.get(k, fallback))`. -/
def choiceGet (data : Corpus) (k : String) (fallback : List String) (rng : RNG) :
    Option (String × RNG) :=
  match lookupEntry data k with
  | some (.strs l) => choice rng l
  | some (.tiers _) => none
  | none => choice rng fallback

/-- `ExcuseFormatter.format_excuse` with the generator's default formatter
(`max_length = None`): two clauses joined by `". "`, the markov clause only
when the phrase is non-empty, a final period, no truncation. -/
def formatExcuse (primaryExcuse secondaryExcuse intensifier connector
    markovPhrase : String) : String :=
  let parts := ["The error was " ++ intensifier ++ " caused by " ++ primaryExcuse,
    connector ++ " " ++ secondaryExcuse]
  let parts := if markovPhrase ≠ "" then
      parts ++ ["Additionally, analysis shows " ++ markovPhrase ++ " instability"]
    else parts
  String.intercalate ". " parts ++ "."

/-- The generated `Excuse` record (the `metadata` dict flattened into
`md_`-prefixed fields; `quantum_probability` keeps the raw word drawn for
`random.random()`). -/
structure Excuse where
  text : String
  recommendation : String
  severity : String
  category : String
  quality_score : Nat
  quantum_probability : Nat
  language : String
  timestamp : Nat
  md_secondary_category : String
  md_markov_component : String
  md_context : Option String
  md_error_message : String
deriving DecidableEq

/-- `ExcuseGenerator.generate`. `t` models the value of `time.time()`
during the call, `fuel` bounds the category re-roll loop, `rng0` is the
state of the shared `random` module on entry. The call starts with
`random.seed(quantum_seed)`, which discards `rng0`; the returned `RNG` is
the state the call leaves in the shared module. -/
def generate (ctx : GenCtx) (data : Corpus) (mk : MarkovState) (language : String)
    (t : Nat) (fuel : Nat) (errorMessage : String) (context : Option String)
    (category : Option String) (rng0 : RNG) : Option (Excuse × RNG) :=
  let severity := analyze errorMessage.toList
  let quantumSeed := ctx.hashFn errorMessage t
  let rng := RNG.seedWith ctx.seedFun quantumSeed
  let init : Option (String × RNG) :=
    match category with
    | some c =>
      if c ≠ "" ∧ (lookupEntry data c).isSome then some (c, rng)
      else choice rng (dataKeys data)
    | none => choice rng (dataKeys data)
  init.bind fun (c0, r0) =>
  (rerollPrimary (dataKeys data) fuel c0 r0).bind fun (primaryCategory, r1) =>
  (choiceEntry data primaryCategory r1).bind fun (primaryExcuse, r2) =>
  let available := (dataKeys data).filter
    (fun k => decide (k ≠ primaryCategory ∧ k ∉ reservedCategories))
  (choice r2 available).bind fun (secondaryCategory, r3) =>
  (choiceEntry data secondaryCategory r3).bind fun (secondaryExcuse, r4) =>
  (getIntensifier data severity r4).bind fun (intensifier, r5) =>
  (choiceGet data "connectors" ["which caused"] r5).bind fun (connector, r6) =>
  (mgen mk r6 5 none).bind fun (markovPhrase, r7) =>
  let excuseText := formatExcuse primaryExcuse secondaryExcuse intensifier connector
    markovPhrase
  (choiceGet data "recommendations" ["Try turning it off and on again"] r7).bind
    fun (recommendation, r8) =>
  let qualityScore := calculateQualityScore excuseText.toList quantumSeed
  let (qp, r9) := r8.next
  some ({ text := excuseText
          recommendation := recommendation
          severity := severity
          category := primaryCategory
          quality_score := qualityScore
          quantum_probability := qp
          language := language
          timestamp := t
          md_secondary_category := secondaryCategory
          md_markov_component := markovPhrase
          md_context := context
          md_error_message := errorMessage }, r9)

/-- `sample_errors` of `ExcuseGenerator.generate_batch`. -/
def sampleErrors : List String :=
  ["FATAL ERROR: Everything is broken!",
    "SegmentationFault: Core dumped",
    "NullPointerException at line infinity",
    "KeyError: 'success'",
    "RuntimeError: Unknown error occurred",
    "ValueError: Invalid value",
    "TypeError: Type mismatch",
    "MemoryError: Out of memory"]

/-- The loop of `generate_batch`: each iteration draws a sample error with
the shared generator's current state, then calls `generate`. `tstream i` is
the value of `time.time()` during the `i`-th call. -/
def batchLoop (ctx : GenCtx) (data : Corpus) (mk : MarkovState) (language : String)
    (tstream : Nat → Nat) (fuel : Nat) :
    Nat → Nat → RNG → List Excuse → Option (List Excuse × RNG)
  | _, 0, rng, acc => some (acc, rng)
  | i, n + 1, rng, acc =>
    match choice rng sampleErrors with
    | none => none
    | some (err, r1) =>
      match generate ctx data mk language (tstream i) fuel err none none r1 with
      | none => none
      | some (exc, r2) => batchLoop ctx data mk language tstream fuel (i + 1) n r2 (acc ++ [exc])

/-- `ExcuseGenerator.generate_batch(count)`: exactly `count` iterations of
draw-an-error-then-generate, collecting the results in order. -/
def generateBatch (ctx : GenCtx) (data : Corpus) (mk : MarkovState) (language : String)
    (tstream : Nat → Nat) (fuel : Nat) (count : Nat) (rng : RNG) :
    Option (List Excuse × RNG) :=
  batchLoop ctx data mk language tstream fuel 0 count rng []

/-! ## `ExcuseLeaderboard` (src/cosmicexcuse/leaderboard.py) -/

/-- A `LeaderboardEntry` (the free-form `metadata` dict is not modelled; no
claim concerns it). -/
structure LeaderboardEntry where
  excuse_text : String
  quality_score : Int
  severity : String
  category : String
  language : String
  timestamp : Nat
  upvotes : Int
  downvotes : Int
deriving DecidableEq

/-- In-memory `ExcuseLeaderboard` state (persistence is out of scope). -/
structure Leaderboard where
  max_size : Nat
  entries : List LeaderboardEntry

/-- Descending order on entries keyed by quality score
(`key=lambda x: x.quality_score, reverse=True`). -/
def entryGe (a b : LeaderboardEntry) : Prop :=
  b.quality_score ≤ a.quality_score

instance : DecidableRel entryGe :=
  fun a b => inferInstanceAs (Decidable (b.quality_score ≤ a.quality_score))

/-- Descending order on bare scores. -/
def scoreGe (a b : Int) : Prop :=
  b ≤ a

instance : DecidableRel scoreGe :=
  fun a b => inferInstanceAs (Decidable (b ≤ a))

/-- `self.entries.sort(key=lambda x: x.quality_score, reverse=True)`:
a stable descending sort by quality score. -/
def sortEntries (l : List LeaderboardEntry) : List LeaderboardEntry :=
  List.insertionSort entryGe l

/-- `ExcuseLeaderboard.add_excuse`: append the new entry, then, when the
size exceeds `max_size`, sort descending by quality and truncate. -/
def addExcuse (lb : Leaderboard) (excuse_text : String) (quality_score : Int)
    (severity category language : String) (t : Nat) : Leaderboard × LeaderboardEntry :=
  let entry : LeaderboardEntry :=
    { excuse_text := excuse_text, quality_score := quality_score,
      severity := severity, category := category, language := language,
      timestamp := t, upvotes := 0, downvotes := 0 }
  let entries := lb.entries ++ [entry]
  let entries := if lb.max_size < entries.length then
      (sortEntries entries).take lb.max_size
    else entries
  ({ lb with entries := entries }, entry)

/-- A fresh leaderboard of the given capacity. -/
def emptyBoard (maxSize : Nat) : Leaderboard :=
  { max_size := maxSize, entries := [] }

/-- Insert a sequence of `(text, score)` pairs one `add_excuse` at a time. -/
def addMany (lb : Leaderboard) (xs : List (String × Int)) : Leaderboard :=
  xs.foldl (fun b p => (addExcuse b p.1 p.2 "medium" "general" "en" 0).1) lb

/-- The retained quality scores, in board order. -/
def boardScores (lb : Leaderboard) : List Int :=
  lb.entries.map LeaderboardEntry.quality_score

/-- Stable descending sort on bare scores. -/
def sortScores (l : List Int) : List Int :=
  List.insertionSort scoreGe l

/-! ## Concrete test fixtures

A small environment on which the embedded program runs to a concrete
result: an all-zero stream family (every draw picks index 0), a zero hash,
a five-category corpus, and two shared-RNG states that differ in cursor
and stream. -/

/-- All draws pick index `0`; the quantum seed hash is constantly `0`. -/
def testCtx : GenCtx :=
  ⟨fun _ _ => 0, fun _ _ => 0⟩

/-- A five-category corpus: two phrase categories plus the three reserved
ones. -/
def testCorpus : Corpus :=
  [("quantum", .strs ["quantum flux"]),
    ("cosmic", .strs ["cosmic ray"]),
    ("recommendations", .strs ["Try again"]),
    ("connectors", .strs ["which caused"]),
    ("intensifiers", .tiers
      [("mild", ["slightly"]), ("medium", ["definitely"]),
        ("severe", ["catastrophically"])])]

/-- An untrained chain (empty table): `generate` falls back to the fixed
string. -/
def emptyMarkov : MarkovState :=
  ⟨1, [], []⟩

/-- The chain `train` produces from the corpus `["a", "b"]` with order 1. -/
def tinyMarkov : MarkovState :=
  ⟨1, [(["a"], ["b"])], [["a"]]⟩

/-- A shared-RNG state: all-zero stream, cursor 5. -/
def testRNG : RNG :=
  ⟨fun _ => 0, 5⟩

/-- A different shared-RNG state: all-7 stream, cursor 123. -/
def testRNG2 : RNG :=
  ⟨fun _ => 7, 123⟩

/-! ## Helper lemmas: matches pull their key word out of the message -/

theorem startsWithL_mem : ∀ {p l : List Char}, startsWithL p l = true → ∀ c ∈ p, c ∈ l
  | [], _, _, c, hc => absurd hc (List.not_mem_nil c)
  | _ :: _, [], h, _, _ => by simp [startsWithL] at h
  | p :: ps, a :: as, h, c, hc => by
    simp only [startsWithL, Bool.and_eq_true, beq_iff_eq] at h
    rcases List.mem_cons.mp hc with rfl | hc'
    · exact List.mem_cons.mpr (Or.inl h.1)
    · exact List.mem_cons.mpr (Or.inr (startsWithL_mem h.2 c hc'))

theorem hasSubstr_mem : ∀ {p l : List Char}, hasSubstr p l = true → ∀ c ∈ p, c ∈ l
  | p, [], h, c, hc => startsWithL_mem h c hc
  | p, a :: t, h, c, hc => by
    simp only [hasSubstr, Bool.or_eq_true] at h
    rcases h with h | h
    · exact startsWithL_mem h c hc
    · exact List.mem_cons.mpr (Or.inr (hasSubstr_mem h c hc))

theorem wordScan_mem {W : List Char} :
    ∀ {prev : Option Char} {l : List Char}, wordScan W prev l = true → ∀ c ∈ W, c ∈ l
  | _, [], h, _, _ => by simp [wordScan] at h
  | prev, a :: t, h, c, hc => by
    simp only [wordScan, Bool.or_eq_true, Bool.and_eq_true] at h
    rcases h with ⟨⟨_, h⟩, _⟩ | h
    · exact startsWithL_mem h c hc
    · exact List.mem_cons.mpr (Or.inr (wordScan_mem h c hc))

theorem startScan_mem {W : List Char} :
    ∀ {prev : Option Char} {l : List Char}, startScan W prev l = true → ∀ c ∈ W, c ∈ l
  | _, [], h, _, _ => by simp [startScan] at h
  | prev, a :: t, h, c, hc => by
    simp only [startScan, Bool.or_eq_true, Bool.and_eq_true] at h
    rcases h with ⟨_, h⟩ | h
    · exact startsWithL_mem h c hc
    · exact List.mem_cons.mpr (Or.inr (startScan_mem h c hc))

theorem warnScan_mem :
    ∀ {prev : Option Char} {l : List Char}, warnScan prev l = true →
      ∀ c ∈ ("warn".toList), c ∈ l
  | _, [], h, _, _ => by simp [warnScan] at h
  | prev, a :: t, h, c, hc => by
    simp only [warnScan, Bool.or_eq_true, Bool.and_eq_true] at h
    rcases h with ⟨⟨_, h⟩, _⟩ | h
    · exact startsWithL_mem h c hc
    · exact List.mem_cons.mpr (Or.inr (warnScan_mem h c hc))

theorem dotStarScan_mem {A B : List Char} :
    ∀ {l : List Char}, dotStarScan A B l = true → ∀ c ∈ A, c ∈ l
  | [], h, _, _ => by simp [dotStarScan] at h
  | a :: t, h, c, hc => by
    simp only [dotStarScan, Bool.or_eq_true, Bool.and_eq_true] at h
    rcases h with ⟨h, _⟩ | h
    · exact startsWithL_mem h c hc
    · exact List.mem_cons.mpr (Or.inr (dotStarScan_mem h c hc))

/-! ## Helper lemmas: whitespace-only messages -/

theorem toLower_of_space {c : Char} (h : pyIsSpace c = true) : Char.toLower c = c := by
  simp only [pyIsSpace, Bool.or_eq_true, beq_iff_eq] at h
  rcases h with ((((h | h) | h) | h) | h) | h <;> subst h <;> decide

theorem lowerL_ws {msg : List Char} (h : ∀ c ∈ msg, pyIsSpace c = true) :
    ∀ c ∈ lowerL msg, pyIsSpace c = true := by
  intro c hc
  obtain ⟨d, hd, rfl⟩ := List.mem_map.mp hc
  rw [toLower_of_space (h d hd)]
  exact h d hd

theorem matchPat_ws {p : Pat} {msg : List Char} (hmsg : ∀ c ∈ msg, pyIsSpace c = true)
    (hkey : (patKey p).any (fun c => !pyIsSpace c) = true) : matchPat p msg = false := by
  obtain ⟨c, hc, hcns⟩ := List.any_eq_true.mp hkey
  rw [Bool.not_eq_true'] at hcns
  cases hm : matchPat p msg
  · rfl
  · exfalso
    have hcl : c ∈ lowerL msg := by
      cases p <;> simp only [matchPat, patKey] at hm hc
      · exact hasSubstr_mem hm c hc
      · exact wordScan_mem hm c hc
      · exact warnScan_mem hm c hc
      · exact startScan_mem hm c hc
      · exact dotStarScan_mem hm c hc
    rw [lowerL_ws hmsg c hcl] at hcns
    exact absurd hcns (by decide)

theorem patternCount_ws {pats : List Pat} {msg : List Char}
    (hmsg : ∀ c ∈ msg, pyIsSpace c = true)
    (hall : pats.all (fun p => (patKey p).any (fun c => !pyIsSpace c)) = true) :
    patternCount pats msg = 0 :=
  List.countP_eq_zero.mpr fun p hp => by
    rw [matchPat_ws hmsg (List.all_eq_true.mp hall p hp)]
    exact Bool.false_ne_true

theorem patternAny_ws {pats : List Pat} {msg : List Char}
    (hmsg : ∀ c ∈ msg, pyIsSpace c = true)
    (hall : pats.all (fun p => (patKey p).any (fun c => !pyIsSpace c)) = true) :
    patternAny pats msg = false := by
  rw [patternAny, List.any_eq_false]
  intro p hp
  rw [matchPat_ws hmsg (List.all_eq_true.mp hall p hp)]
  exact Bool.false_ne_true

theorem keywordCount_ws {kws : List String} {msg : List Char}
    (hmsg : ∀ c ∈ msg, pyIsSpace c = true)
    (hall : kws.all (fun kw => kw.toList.any (fun c => !pyIsSpace c)) = true) :
    keywordCount kws (lowerL msg) = 0 :=
  List.countP_eq_zero.mpr fun kw hkw => by
    intro hsub
    obtain ⟨c, hc, hcns⟩ := List.any_eq_true.mp (List.all_eq_true.mp hall kw hkw)
    rw [Bool.not_eq_true'] at hcns
    have := lowerL_ws hmsg c (hasSubstr_mem hsub c hc)
    rw [this] at hcns
    exact absurd hcns (by decide)

theorem count_bang_ws {msg : List Char} (h : ∀ c ∈ msg, pyIsSpace c = true) :
    msg.count '!' = 0 := by
  rw [List.count_eq_zero]
  intro hmem
  have := h '!' hmem
  simp [pyIsSpace] at this

theorem splitWsAux_ws : ∀ {l : List Char}, (∀ c ∈ l, pyIsSpace c = true) →
    splitWsAux [] l = []
  | [], _ => rfl
  | c :: t, h => by
    have hc := h c (List.mem_cons_self c t)
    simp only [splitWsAux, hc, if_true, List.isEmpty_nil]
    exact splitWsAux_ws fun d hd => h d (List.mem_cons.mpr (Or.inr hd))

theorem splitWs_ws {msg : List Char} (h : ∀ c ∈ msg, pyIsSpace c = true) :
    splitWs msg = [] :=
  splitWsAux_ws h

/-! ## Substring test vs. `List.IsInfix` -/

theorem startsWithL_iff : ∀ {p l : List Char}, startsWithL p l = true ↔ p <+: l
  | [], l => by simp [startsWithL]
  | a :: as, [] => by simp [startsWithL]
  | a :: as, b :: bs => by
    simp only [startsWithL, Bool.and_eq_true, beq_iff_eq, List.cons_prefix_cons]
    exact and_congr Iff.rfl startsWithL_iff

theorem hasSubstr_iff : ∀ {p l : List Char}, hasSubstr p l = true ↔ p <:+: l
  | p, [] => by
    simp only [hasSubstr, startsWithL_iff, List.prefix_nil, List.infix_nil]
  | p, a :: t => by
    simp only [hasSubstr, Bool.or_eq_true, startsWithL_iff, hasSubstr_iff (l := t)]
    exact (List.infix_cons_iff).symm

/-! ## Claim C9: whitespace-only and empty input classify as `mild` -/

/-- **C9.** `SeverityAnalyzer.analyze` returns `"mild"` on the empty message
and on every whitespace-only message (and, being a total function of the
embedding, never raises there). -/
theorem c9_mild_on_whitespace (msg : List Char) (h : ∀ c ∈ msg, pyIsSpace c = true) :
    analyze msg = "mild" := by
  by_cases hmsg : msg = []
  · rw [analyze, if_pos hmsg]
  · have hs : patternAny severePatterns msg = false := patternAny_ws h (by decide)
    have hm : patternAny mediumPatterns msg = false := patternAny_ws h (by decide)
    have hml : patternAny mildPatterns msg = false := patternAny_ws h (by decide)
    have hcs : patternCount severePatterns msg = 0 := patternCount_ws h (by decide)
    have hcm : patternCount mediumPatterns msg = 0 := patternCount_ws h (by decide)
    have hcml : patternCount mildPatterns msg = 0 := patternCount_ws h (by decide)
    have hks : keywordCount severeKeywords (lowerL msg) = 0 := keywordCount_ws h (by decide)
    have hkm : keywordCount mediumKeywords (lowerL msg) = 0 := keywordCount_ws h (by decide)
    have hkml : keywordCount mildKeywords (lowerL msg) = 0 := keywordCount_ws h (by decide)
    have hex : exclamScore msg = 0 := by
      simp [exclamScore, count_bang_ws h]
    have hup : uppercaseCount msg = 0 := by
      rw [uppercaseCount, splitWs_ws h]
      rfl
    simp only [analyze, hmsg, if_false, topPattern, hs, hm, hml, patternScore,
      hcs, hcm, hcml, keywordScore, hks, hkm, hkml, hex, hup]
    norm_num

/-- Witness for C9 at a concrete whitespace-only message. -/
theorem c9_witness : analyze (" \t ".toList) = "mild" :=
  c9_mild_on_whitespace _ (by decide)

/-! ## Claim C3: severe keyword plus three `!` -/

/-- **C3 (amended).** For every non-empty message that contains three
*consecutive* `!` characters (the `!!!+` pattern) and a severe-tier keyword,
`analyze` returns `"severe"`.  (As stated, with the three `!` allowed to be
scattered, the claim is false — see the counterexample.) -/
theorem c3_severe_on_triple_bang (msg : List Char) (h0 : msg ≠ [])
    (h1 : hasSubstr ("!!!".toList) msg = true)
    (h2 : severeKeywords.any (fun kw => hasSubstr kw.toList (lowerL msg)) = true) :
    analyze msg = "severe" := by
  have hmatch : matchPat (.sub "!!!") msg = true := by
    rw [matchPat]
    exact hasSubstr_iff.mpr ((hasSubstr_iff.mp h1).map Char.toLower)
  have hany : patternAny severePatterns msg = true :=
    List.any_eq_true.mpr ⟨.sub "!!!", by decide, hmatch⟩
  have hcount : 0 < patternCount severePatterns msg :=
    List.countP_pos_iff.mpr ⟨.sub "!!!", by decide, hmatch⟩
  have hscore : 5 ≤ patternScore msg := by
    rw [patternScore]
    omega
  have htop : topPattern msg = some "severe" := by
    rw [topPattern, if_pos hany]
  simp only [analyze, h0, if_false]
  rw [if_pos ⟨htop, hscore⟩]

/-- Counterexample to C3 as stated: `"doom! x! y!"` is non-empty, has three
(scattered) `!`, contains the severe keyword `doom`, yet `analyze` returns
`"medium"`. -/
theorem c3_counterexample :
    ("doom! x! y!".toList ≠ ([] : List Char)) ∧
      3 ≤ ("doom! x! y!".toList).count '!' ∧
      severeKeywords.any (fun kw => hasSubstr kw.toList (lowerL ("doom! x! y!".toList))) = true ∧
      analyze ("doom! x! y!".toList) = "medium" := by
  decide

/-- Witness for C3 (amended) at a concrete message. -/
theorem c3_witness : analyze ("FATAL!!! fatal".toList) = "severe" :=
  c3_severe_on_triple_bang _ (by decide) (by decide) (by decide)

/-! ## Claim C4: the quality-score formula -/

theorem min_hundred_absorb (x y : Nat) : min 100 (min 100 x + y) = min 100 (x + y) := by
  rcases le_total x 100 with h | h
  · rw [Nat.min_eq_right h]
  · rw [Nat.min_eq_left h, Nat.min_eq_left (by omega), Nat.min_eq_left (by omega)]

theorem foldBonus (pred : String → Bool) :
    ∀ (l : List String) (s : Nat), s ≤ 100 →
      l.foldl (fun s w => if pred w then min 100 (s + 5) else s) s =
        min 100 (s + 5 * l.countP pred)
  | [], s, hs => by
    simp [Nat.min_eq_right hs]
  | w :: t, s, hs => by
    rw [List.foldl_cons, List.countP_cons]
    by_cases hw : pred w
    · rw [if_pos hw, foldBonus pred t _ (min_le_left _ _), min_hundred_absorb]
      simp only [hw, if_pos]
      ring_nf
    · rw [if_neg hw, foldBonus pred t s hs]
      simp [hw]

/-- **C4 (amended).** The computed quality score is
`max 1 (min 100 ((len · seed) mod 100 + 5 · bonusCount))`: the `+5` bonuses
are added (capped at 100) to the raw `mod 100` value, and the clamp to the
lower bound 1 is applied *after* the bonuses, not before. -/
theorem c4_score_closed_form (text : List Char) (seed : Nat) :
    calculateQualityScore text seed =
      max 1 (min 100 (text.length * seed % 100 + 5 * bonusCount text)) := by
  simp only [calculateQualityScore, bonusCount]
  rw [foldBonus _ _ _ (le_of_lt (Nat.mod_lt _ (by norm_num)))]
  rw [← Nat.min_assoc, Nat.min_self]

/-- Counterexample to C4 as stated: on text `"quantum"` with seed `0` the
code yields 5 (`0 + 5`, floor applied after the bonus), while the claimed
formula (clamp to 1 before the bonus) yields 6. -/
theorem c4_counterexample :
    calculateQualityScore ("quantum".toList) 0 = 5 ∧
      qualityScoreSpecClaim ("quantum".toList) 0 = 6 ∧
      calculateQualityScore ("quantum".toList) 0 ≠ qualityScoreSpecClaim ("quantum".toList) 0 := by
  decide

/-! ## Claim C10: totality of `MarkovChain.train` -/

theorem trainLoop_isSome (corpus : List String) (order : Nat)
    (h : ∀ w ∈ corpus, w ≠ "") :
    ∀ (cnt i : Nat) (c : List (List String × List String)) (s : List (List String)),
      i + cnt + order ≤ corpus.length → (trainLoop corpus order i cnt c s).isSome
  | 0, i, c, s, _ => rfl
  | cnt + 1, i, c, s, hb => by
    have h1 : i + order < corpus.length := by omega
    obtain ⟨v, hv⟩ : ∃ v, corpus.get? (i + order) = some v :=
      ⟨_, List.get?_eq_get h1⟩
    by_cases hi : i = 0
    · subst hi
      simp only [trainLoop, hv]
      exact trainLoop_isSome corpus order h cnt 1 _ _ (by omega)
    · have h2 : i < corpus.length := by omega
      obtain ⟨w, hw⟩ : ∃ w, corpus.get? i = some w := ⟨_, List.get?_eq_get h2⟩
      have hwne : w ≠ "" := h w (List.get?_mem hw)
      have hchars : w.toList ≠ [] := by
        intro hnil
        exact hwne (by cases w with | mk d => cases hnil; rfl)
      cases hl : w.toList with
      | nil => exact absurd hl hchars
      | cons ch rest =>
        simp only [trainLoop, hv, hw, hl, if_neg hi, List.head?]
        exact trainLoop_isSome corpus order h cnt (i + 1) _ _ (by omega)

/-- **C10.** `MarkovChain.train` never raises on a corpus whose tokens are
all non-empty: the only partial step, indexing `corpus[i][0]` in the
starter test, is then always defined (and for `i = 0` Python's `or`
short-circuits before the indexing). -/
theorem c10_train_total (st : MarkovState) (corpus : List String)
    (h : ∀ w ∈ corpus, w ≠ "") : (train st corpus).isSome := by
  rw [train]
  by_cases hlen : corpus.length < st.order + 1
  · rw [if_pos hlen]
    rfl
  · rw [if_neg hlen]
    have hs := trainLoop_isSome corpus st.order h (corpus.length - st.order) 0
      st.chain st.starters (by omega)
    obtain ⟨⟨c, s⟩, hp⟩ := Option.isSome_iff_exists.mp hs
    rw [hp]
    rfl

/-- Witness for C10: training an order-1 chain on `["a", "b"]` succeeds. -/
theorem c10_witness : (train ⟨1, [], []⟩ ["a", "b"]).isSome :=
  c10_train_total _ _ (by decide)

/-! ## Claim C5: `MarkovChain.generate` token bound and totality -/

theorem choice_isSome {α : Type} (r : RNG) (l : List α) (h : l ≠ []) :
    (choice r l).isSome := by
  rw [choice]
  have hlt : r.stream r.pos % l.length < l.length := Nat.mod_lt _ (List.length_pos.mpr h)
  obtain ⟨a, ha⟩ : ∃ a, l.get? (r.stream r.pos % l.length) = some a :=
    ⟨_, List.get?_eq_get hlt⟩
  rw [ha]
  rfl

theorem choice_mem {α : Type} {r : RNG} {l : List α} {a : α} {r' : RNG}
    (h : choice r l = some (a, r')) : a ∈ l := by
  rw [choice] at h
  cases hg : l.get? (r.stream r.pos % l.length) with
  | none => rw [hg] at h; cases h
  | some b =>
    rw [hg] at h
    cases h
    exact List.get?_mem hg

theorem chainFind_mem : ∀ {c : List (List String × List String)}
    {k : List String} {v : List String}, chainFind c k = some v → (k, v) ∈ c
  | [], _, _, h => by cases h
  | (k', vs) :: t, k, v, h => by
    rw [chainFind] at h
    by_cases hk : k' = k
    · rw [if_pos hk] at h
      cases h
      subst hk
      exact List.mem_cons_self _ _
    · rw [if_neg hk] at h
      exact List.mem_cons.mpr (Or.inr (chainFind_mem h))

theorem mgenLoop_total (st : MarkovState) (hsucc : ∀ kv ∈ st.chain, kv.2 ≠ []) :
    ∀ (n : Nat) (cur res : List String) (rng : RNG),
      ∃ res' rng', mgenLoop st n cur res rng = some (res', rng') ∧
        res'.length ≤ res.length + n
  | 0, cur, res, rng => ⟨res, rng, rfl, by omega⟩
  | n + 1, cur, res, rng => by
    cases hf : chainFind st.chain cur with
    | some succs =>
      have hne : succs ≠ [] := hsucc _ (chainFind_mem hf)
      obtain ⟨⟨w, rng2⟩, hc⟩ := Option.isSome_iff_exists.mp (choice_isSome rng succs hne)
      obtain ⟨res', rng', hloop, hlen⟩ :=
        mgenLoop_total st hsucc n (if st.order = 1 then [w] else cur.drop 1 ++ [w])
          (res ++ [w]) rng2
      refine ⟨res', rng', ?_, ?_⟩
      · simp only [mgenLoop, hf, hc]
        exact hloop
      · have : (res ++ [w]).length = res.length + 1 := by simp
        omega
    | none =>
      by_cases hce : st.chain.isEmpty
      · exact ⟨res, rng, by simp only [mgenLoop, hf, hce, if_true], by omega⟩
      · have hkeys : chainKeys st.chain ≠ [] := by
          intro hk
          exact hce (by simpa [chainKeys, List.map_eq_nil_iff] using hk)
        obtain ⟨⟨k, rng2⟩, hc⟩ :=
          Option.isSome_iff_exists.mp (choice_isSome rng (chainKeys st.chain) hkeys)
        obtain ⟨res', rng', hloop, hlen⟩ := mgenLoop_total st hsucc n k res rng2
        refine ⟨res', rng', ?_, by omega⟩
        simp only [mgenLoop, hf, hce, if_false, hc]
        exact hloop

theorem mgenStart_total (st : MarkovState) (rng : RNG) (sw : Option String)
    (hchain : st.chain ≠ []) (hstart : ∀ k ∈ st.starters, k ∈ chainKeys st.chain) :
    ∃ cur rng1, mgenStart st rng sw = some (cur, rng1) ∧ cur ∈ chainKeys st.chain := by
  have hkeys : chainKeys st.chain ≠ [] := by
    intro hk
    exact hchain (by simpa [chainKeys, List.map_eq_nil_iff] using hk)
  cases sw with
  | none =>
    by_cases hst : st.starters.isEmpty
    · obtain ⟨⟨cur, rng1⟩, hc⟩ :=
        Option.isSome_iff_exists.mp (choice_isSome rng (chainKeys st.chain) hkeys)
      exact ⟨cur, rng1, by simp only [mgenStart, hst, if_true]; exact hc, choice_mem hc⟩
    · have hne : st.starters ≠ [] := fun he => by simp [he] at hst
      obtain ⟨⟨cur, rng1⟩, hc⟩ :=
        Option.isSome_iff_exists.mp (choice_isSome rng st.starters hne)
      exact ⟨cur, rng1, by simp only [mgenStart, hst, if_false]; exact hc,
        hstart cur (choice_mem hc)⟩
  | some w =>
    by_cases hm : ((chainKeys st.chain).filter (fun k => w ∈ k)).isEmpty
    · by_cases hst : st.starters.isEmpty
      · obtain ⟨⟨cur, rng1⟩, hc⟩ :=
          Option.isSome_iff_exists.mp (choice_isSome rng (chainKeys st.chain) hkeys)
        exact ⟨cur, rng1, by simp only [mgenStart, hm, hst, if_true]; exact hc,
          choice_mem hc⟩
      · have hne : st.starters ≠ [] := fun he => by simp [he] at hst
        obtain ⟨⟨cur, rng1⟩, hc⟩ :=
          Option.isSome_iff_exists.mp (choice_isSome rng st.starters hne)
        exact ⟨cur, rng1, by simp only [mgenStart, hm, hst, if_true, if_false]; exact hc,
          hstart cur (choice_mem hc)⟩
    · have hne : (chainKeys st.chain).filter (fun k => w ∈ k) ≠ [] :=
        fun he => by simp [he] at hm
      obtain ⟨⟨cur, rng1⟩, hc⟩ := Option.isSome_iff_exists.mp (choice_isSome rng _ hne)
      exact ⟨cur, rng1, by simp only [mgenStart, hm, if_false]; exact hc,
        List.mem_of_mem_filter (choice_mem hc)⟩

/-- **C5 (amended).** On every chain state satisfying the invariant `train`
establishes, `generate` never raises: it returns the fixed fallback string
on an empty transition table, and otherwise a join of at most
`max order length` tokens — at most `length` tokens whenever
`length ≥ order`, but `order` tokens (more than requested) when
`length < order`, which refutes the unconditional `≤ length` bound of the
claim as stated. -/
theorem c5_generate_token_bound (st : MarkovState) (rng : RNG) (len : Nat)
    (sw : Option String) (h : MarkovInv st) :
    ∃ toks rng', mgenTokens st rng len sw = some (toks, rng') ∧
      mgen st rng len sw = some (joinSpace toks, rng') ∧
      (st.chain = [] → joinSpace toks = "technical difficulties") ∧
      (st.chain ≠ [] → toks.length ≤ max st.order len) := by
  obtain ⟨hkv, hstart⟩ := h
  by_cases hchain : st.chain.isEmpty
  · refine ⟨["technical", "difficulties"], rng, ?_, ?_, fun _ => ?_, fun hne => ?_⟩
    · rw [mgenTokens, if_pos hchain]
    · rw [mgen, mgenTokens, if_pos hchain]
      rfl
    · rfl
    · exact absurd (List.isEmpty_iff.mp hchain) hne
  · have hne : st.chain ≠ [] := fun he => by simp [he] at hchain
    obtain ⟨cur, rng1, hstarteq, hcurmem⟩ := mgenStart_total st rng sw hne hstart
    have hcurlen : cur.length = st.order := by
      obtain ⟨kv, hkvmem, hfst⟩ := List.mem_map.mp hcurmem
      rw [← hfst]
      exact (hkv kv hkvmem).2
    obtain ⟨res', rng', hloop, hlen⟩ :=
      mgenLoop_total st (fun kv hm => (hkv kv hm).1) (len - st.order) cur cur rng1
    refine ⟨res', rng', ?_, ?_, fun he => absurd he hne, fun _ => ?_⟩
    · rw [mgenTokens, if_neg hchain, hstarteq]
      exact hloop
    · rw [mgen, mgenTokens, if_neg hchain, hstarteq]
      dsimp only
      rw [hloop]
      rfl
    · rw [hcurlen] at hlen
      rcases Nat.le_total st.order len with ho | ho
      · have : st.order + (len - st.order) = len := by omega
        rw [this] at hlen
        exact le_trans hlen (le_max_right _ _)
      · have : len - st.order = 0 := by omega
        rw [this, Nat.add_zero] at hlen
        exact le_trans hlen (le_max_left _ _)

/-- Counterexample to C5 as stated: on the order-1 chain trained from
`["a", "b"]` (a state satisfying the train invariant), requesting
`length = 0` still produces the one-token output `"a"` — more tokens than
requested. -/
theorem c5_counterexample :
    MarkovInv tinyMarkov ∧
      (mgen tinyMarkov testRNG 0 none).map (fun p => p.1) = some "a" ∧
      (splitWs ("a".toList)).length = 1 ∧
      ¬ (splitWs ("a".toList)).length ≤ 0 := by
  refine ⟨?_, by decide, by decide, by decide⟩
  unfold MarkovInv
  exact ⟨by decide, by decide⟩

/-- Witness for C5 (amended) on the trained chain at requested length 5. -/
theorem c5_witness :
    ∃ toks rng', mgenTokens tinyMarkov testRNG 5 none = some (toks, rng') ∧
      mgen tinyMarkov testRNG 5 none = some (joinSpace toks, rng') ∧
      (tinyMarkov.chain = [] → joinSpace toks = "technical difficulties") ∧
      (tinyMarkov.chain ≠ [] → toks.length ≤ max tinyMarkov.order 5) :=
  c5_generate_token_bound tinyMarkov testRNG 5 none
    (by unfold MarkovInv; exact ⟨by decide, by decide⟩)

/-! ## Claim C7: leaderboard capacity and lowest-quality eviction -/

instance : IsTrans Int scoreGe :=
  ⟨fun _ _ _ h1 h2 => le_trans h2 h1⟩

instance : IsTotal Int scoreGe :=
  ⟨fun a b => le_total b a⟩

instance : IsAntisymm Int scoreGe :=
  ⟨fun _ _ h1 h2 => le_antisymm h2 h1⟩

instance : IsTrans LeaderboardEntry entryGe :=
  ⟨fun _ _ _ h1 h2 => le_trans h2 h1⟩

instance : IsTotal LeaderboardEntry entryGe :=
  ⟨fun a b => le_total b.quality_score a.quality_score⟩

theorem sortScores_sorted (l : List Int) : List.Sorted scoreGe (sortScores l) :=
  List.sorted_insertionSort scoreGe l

theorem sortScores_perm (l : List Int) : List.Perm (sortScores l) l :=
  List.perm_insertionSort scoreGe l

theorem sortScores_congr {l l' : List Int} (h : List.Perm l l') :
    sortScores l = sortScores l' :=
  List.eq_of_perm_of_sorted ((sortScores_perm l).trans (h.trans (sortScores_perm l').symm))
    (sortScores_sorted l) (sortScores_sorted l')

theorem sortScores_of_sorted {l : List Int} (h : List.Sorted scoreGe l) :
    sortScores l = l :=
  List.Sorted.insertionSort_eq h

theorem sorted_take {l : List Int} (h : List.Sorted scoreGe l) (n : Nat) :
    List.Sorted scoreGe (l.take n) :=
  h.sublist (List.take_sublist n l)

theorem sortScores_append (l : List Int) (x : Int) :
    sortScores (l ++ [x]) = List.orderedInsert scoreGe x (sortScores l) :=
  List.eq_of_perm_of_sorted
    ((sortScores_perm _).trans ((List.perm_append_singleton x l).trans
      (((sortScores_perm l).symm.cons x).trans (List.perm_orderedInsert scoreGe x _).symm)))
    (sortScores_sorted _) ((sortScores_sorted l).orderedInsert x _)

theorem take_orderedInsert_take (x : Int) :
    ∀ (s : List Int) (m : Nat),
      (List.orderedInsert scoreGe x s).take m =
        (List.orderedInsert scoreGe x (s.take m)).take m
  | [], m => by simp
  | y :: ys, 0 => by simp
  | y :: ys, m + 1 => by
    by_cases h : scoreGe x y
    · rw [List.take_succ_cons, List.orderedInsert, if_pos h, List.orderedInsert, if_pos h,
        List.take_succ_cons, List.take_succ_cons]
      congr 1
      cases m with
      | zero => simp
      | succ k =>
        rw [List.take_succ_cons, List.take_succ_cons, List.take_take]
        congr 2
        omega
    · rw [List.take_succ_cons, List.orderedInsert, if_neg h, List.orderedInsert, if_neg h,
        List.take_succ_cons, List.take_succ_cons]
      congr 1
      exact take_orderedInsert_take x ys m

theorem map_sortEntries (l : List LeaderboardEntry) :
    (sortEntries l).map LeaderboardEntry.quality_score =
      sortScores (l.map LeaderboardEntry.quality_score) :=
  List.map_insertionSort entryGe scoreGe _ l (fun _ _ _ _ => Iff.rfl)

/-- Scores of the entries after one `add_excuse`, as a function of the
scores before. -/
theorem boardScores_addExcuse (lb : Leaderboard) (tx : String) (q : Int)
    (sv ct lg : String) (t : Nat) :
    boardScores (addExcuse lb tx q sv ct lg t).1 =
      if lb.max_size < (boardScores lb ++ [q]).length then
        (sortScores (boardScores lb ++ [q])).take lb.max_size
      else boardScores lb ++ [q] := by
  simp only [addExcuse, boardScores, apply_ite (List.map LeaderboardEntry.quality_score),
    List.map_take, map_sortEntries, List.map_append, List.map_cons, List.map_nil,
    List.length_append, List.length_map, List.length_cons, List.length_nil]

theorem addMany_max_size : ∀ (xs : List (String × Int)) (lb : Leaderboard),
    (addMany lb xs).max_size = lb.max_size
  | [], _ => rfl
  | x :: xs, lb => by
    rw [addMany, List.foldl_cons]
    exact addMany_max_size xs _

/-- One step of the top-`m` invariant. -/
theorem topk_step (m : Nat) (S : List Int) (L : List Int) (q : Int)
    (hL : List.Perm L ((sortScores S).take m)) :
    List.Perm
      (if m < (L ++ [q]).length then (sortScores (L ++ [q])).take m else L ++ [q])
      ((sortScores (S ++ [q])).take m) := by
  have hsortL : sortScores L = (sortScores S).take m :=
    (sortScores_congr hL).trans (sortScores_of_sorted (sorted_take (sortScores_sorted S) m))
  have hkey : (sortScores (L ++ [q])).take m = (sortScores (S ++ [q])).take m := by
    rw [sortScores_append, hsortL, ← take_orderedInsert_take, ← sortScores_append]
  by_cases h : m < (L ++ [q]).length
  · rw [if_pos h, hkey]
  · rw [if_neg h]
    have hlen : L.length + 1 ≤ m := by
      simp only [List.length_append, List.length_cons, List.length_nil] at h
      omega
    have hLlen : L.length = min m S.length := by
      rw [hL.length_eq, List.length_take, (sortScores_perm S).length_eq]
    have htakeS : (sortScores S).take m = sortScores S :=
      List.take_of_length_le (by rw [(sortScores_perm S).length_eq]; omega)
    have hfull : (sortScores (S ++ [q])).take m = sortScores (S ++ [q]) := by
      refine List.take_of_length_le ?_
      rw [(sortScores_perm _).length_eq, List.length_append]
      simp only [List.length_cons, List.length_nil]
      omega
    rw [htakeS] at hL
    rw [hfull, sortScores_append]
    exact (List.perm_append_singleton q L).trans
      ((hL.cons q).trans (List.perm_orderedInsert scoreGe q _).symm)

/-- The multiset of scores kept after any insertion sequence from an empty
board is exactly the top `max_size` of all inserted scores. -/
theorem addMany_topk (m : Nat) (xs : List (String × Int)) :
    List.Perm (boardScores (addMany (emptyBoard m) xs))
      ((sortScores (xs.map Prod.snd)).take m) := by
  induction xs using List.reverseRecOn with
  | nil =>
    simp only [addMany, List.foldl_nil, emptyBoard, boardScores, List.map_nil]
    rw [show sortScores [] = [] from rfl, List.take_nil]
  | append_singleton xs x ih =>
    rw [addMany, List.foldl_append, List.foldl_cons, List.foldl_nil, ← addMany]
    rw [boardScores_addExcuse, addMany_max_size, List.map_append]
    exact topk_step m (xs.map Prod.snd) _ x.2 ih

theorem addExcuse_length_le (lb : Leaderboard) (tx : String) (q : Int)
    (sv ct lg : String) (t : Nat) :
    (addExcuse lb tx q sv ct lg t).1.entries.length ≤ lb.max_size := by
  have hlen : (addExcuse lb tx q sv ct lg t).1.entries.length =
      (boardScores (addExcuse lb tx q sv ct lg t).1).length :=
    (List.length_map _ _).symm
  rw [hlen, boardScores_addExcuse]
  by_cases hc : lb.max_size < (boardScores lb ++ [q]).length
  · rw [if_pos hc]
    simp [List.length_take]
  · rw [if_neg hc]
    simp only [List.length_append, List.length_cons, List.length_nil] at hc ⊢
    omega

/-- **C7.** Every `add_excuse` call leaves at most `max_size` entries; after
any insertion sequence from an empty board the retained scores are, as a
multiset, exactly the `max_size` largest inserted scores (lowest-quality
eviction); in particular inserting scores 10, 90, 50, 20, 80 in any order
with `max_size = 3` retains exactly 90, 80, 50. -/
theorem c7_leaderboard_topk (lb : Leaderboard) (tx : String) (q : Int)
    (sv ct lg : String) (t : Nat) (m : Nat) (xs : List (String × Int)) :
    (addExcuse lb tx q sv ct lg t).1.entries.length ≤ lb.max_size ∧
      List.Perm (boardScores (addMany (emptyBoard m) xs))
        ((sortScores (xs.map Prod.snd)).take m) ∧
      (List.Perm (xs.map Prod.snd) [10, 90, 50, 20, 80] →
        sortScores (boardScores (addMany (emptyBoard 3) xs)) = [90, 80, 50]) := by
  refine ⟨addExcuse_length_le lb tx q sv ct lg t, addMany_topk m xs, fun hp => ?_⟩
  have h3 := addMany_topk 3 xs
  have hsx : sortScores (xs.map Prod.snd) = [90, 80, 50, 20, 10] := by
    rw [sortScores_congr hp]
    decide
  rw [hsx, show ([90, 80, 50, 20, 10] : List Int).take 3 = [90, 80, 50] from rfl] at h3
  rw [sortScores_congr h3]
  decide

/-- Witness for C7 at one concrete insertion order of the five scores. -/
theorem c7_witness :
    sortScores (boardScores (addMany (emptyBoard 3)
      [("a", 10), ("b", 90), ("c", 50), ("d", 20), ("e", 80)])) = [90, 80, 50] :=
  (c7_leaderboard_topk (emptyBoard 0) "" 0 "" "" "" 0 3
    [("a", 10), ("b", 90), ("c", 50), ("d", 20), ("e", 80)]).2.2 (by decide)

/-! ## Claim C1: the quantum seed reseeds the shared generator -/

/-- **C1 (amended).** `generate` begins with `random.seed(quantum_seed)`, so
its entire result — including the shared `random` state it leaves behind —
is independent of the shared generator's state on entry: the per-call seed
*is* used to reseed the shared random source, and simultaneous calls with
identical error message and clock value produce identical results. -/
theorem c1_seed_reseeds_shared_rng (ctx : GenCtx) (data : Corpus) (mk : MarkovState)
    (language : String) (t fuel : Nat) (errorMessage : String) (context : Option String)
    (category : Option String) (rngA rngB : RNG) :
    generate ctx data mk language t fuel errorMessage context category rngA =
      generate ctx data mk language t fuel errorMessage context category rngB :=
  rfl

set_option maxRecDepth 40000 in
/-- Counterexample to C1 as stated: a concrete `generate` call moves the
shared generator's cursor from 5 to 8 (the state *is* affected), and two
calls made from observably different shared-RNG states return the same
`(category, quality_score, text)` tuple. -/
theorem c1_counterexample :
    (generate testCtx testCorpus emptyMarkov "en" 0 10 "" none none testRNG).map
        (fun p => p.2.pos) = some 8 ∧
      testRNG.pos = 5 ∧ (8 : Nat) ≠ 5 ∧
      (generate testCtx testCorpus emptyMarkov "en" 0 10 "" none none testRNG2).map
          (fun p => (p.1.category, p.1.quality_score, p.1.text)) =
        (generate testCtx testCorpus emptyMarkov "en" 0 10 "" none none testRNG).map
          (fun p => (p.1.category, p.1.quality_score, p.1.text)) ∧
      testRNG2.pos ≠ testRNG.pos := by
  exact ⟨by decide, rfl, by decide, by decide, by decide⟩

/-! ## Claim C6: the category hint -/

theorem rerollPrimary_not_reserved (keys : List String) (fuel : Nat) (cat : String)
    (rng : RNG) (h : cat ∉ reservedCategories) :
    rerollPrimary keys fuel cat rng = some (cat, rng) := by
  cases fuel <;> simp [rerollPrimary, h]

theorem generate_category_of_hint (ctx : GenCtx) (data : Corpus) (mk : MarkovState)
    (language : String) (t fuel : Nat) (errorMessage : String) (context : Option String)
    (c : String) (rng : RNG) (e : Excuse) (r' : RNG)
    (hne : c ≠ "") (hmem : (lookupEntry data c).isSome) (hres : c ∉ reservedCategories)
    (hgen : generate ctx data mk language t fuel errorMessage context (some c) rng =
      some (e, r')) : e.category = c := by
  simp only [generate] at hgen
  rw [if_pos ⟨hne, hmem⟩] at hgen
  rw [Option.some_bind] at hgen
  dsimp only at hgen
  rw [rerollPrimary_not_reserved _ _ _ _ hres, Option.some_bind] at hgen
  dsimp only at hgen
  rw [Option.bind_eq_some] at hgen
  obtain ⟨⟨pe, r2⟩, h1, hgen⟩ := hgen
  dsimp only at hgen
  rw [Option.bind_eq_some] at hgen
  obtain ⟨⟨sc, r3⟩, h2, hgen⟩ := hgen
  dsimp only at hgen
  rw [Option.bind_eq_some] at hgen
  obtain ⟨⟨se, r4⟩, h3, hgen⟩ := hgen
  dsimp only at hgen
  rw [Option.bind_eq_some] at hgen
  obtain ⟨⟨inten, r5⟩, h4, hgen⟩ := hgen
  dsimp only at hgen
  rw [Option.bind_eq_some] at hgen
  obtain ⟨⟨conn, r6⟩, h5, hgen⟩ := hgen
  dsimp only at hgen
  rw [Option.bind_eq_some] at hgen
  obtain ⟨⟨mph, r7⟩, h6, hgen⟩ := hgen
  dsimp only at hgen
  rw [Option.bind_eq_some] at hgen
  obtain ⟨⟨rec, r8⟩, h7, hgen⟩ := hgen
  dsimp only [RNG.next] at hgen
  rw [Option.some.injEq, Prod.mk.injEq] at hgen
  rw [← hgen.1]

/-- **C6 (amended).** Whenever the caller supplies a non-empty category
hint that is a key of the loaded corpus *and is not one of the reserved
names*, a successful `generate` returns that hint as the excuse's
category.  (A reserved hint is overridden by the re-roll loop — see the
counterexample.) -/
theorem c6_category_hint_respected (ctx : GenCtx) (data : Corpus) (mk : MarkovState)
    (language : String) (t fuel : Nat) (errorMessage : String) (context : Option String)
    (c : String) (rng : RNG)
    (hne : c ≠ "") (hmem : (lookupEntry data c).isSome) (hres : c ∉ reservedCategories)
    (hsome : (generate ctx data mk language t fuel errorMessage context (some c) rng).isSome) :
    (generate ctx data mk language t fuel errorMessage context (some c) rng).map
      (fun p => p.1.category) = some c := by
  obtain ⟨⟨e, r'⟩, hgen⟩ := Option.isSome_iff_exists.mp hsome
  rw [hgen, Option.map_some']
  exact congrArg some (generate_category_of_hint ctx data mk language t fuel errorMessage
    context c rng e r' hne hmem hres hgen)

set_option maxRecDepth 40000 in
/-- Counterexample to C6 as stated: `"connectors"` is a key of the corpus,
yet a `generate` call hinted with it returns category `"quantum"`. -/
theorem c6_counterexample :
    ("connectors" ∈ dataKeys testCorpus) ∧
      (generate testCtx testCorpus emptyMarkov "en" 0 10 "" none (some "connectors")
          testRNG).map (fun p => p.1.category) = some "quantum" ∧
      ("quantum" : String) ≠ "connectors" := by
  exact ⟨by decide, by decide, by decide⟩

set_option maxRecDepth 40000 in
/-- Witness for C6 (amended) with the non-reserved hint `"cosmic"`. -/
theorem c6_witness :
    (generate testCtx testCorpus emptyMarkov "en" 0 10 "" none (some "cosmic")
      testRNG).map (fun p => p.1.category) = some "cosmic" :=
  c6_category_hint_respected testCtx testCorpus emptyMarkov "en" 0 10 "" none "cosmic"
    testRNG (by decide) (by decide) (by decide) (by decide)

/-! ## Claim C8: quality scores lie in [1, 100] -/

theorem calculateQualityScore_bounds (text : List Char) (seed : Nat) :
    1 ≤ calculateQualityScore text seed ∧ calculateQualityScore text seed ≤ 100 := by
  simp only [calculateQualityScore]
  exact ⟨le_max_left _ _, max_le (by omega) (min_le_left _ _)⟩

theorem generate_quality_in_range (ctx : GenCtx) (data : Corpus) (mk : MarkovState)
    (language : String) (t fuel : Nat) (errorMessage : String)
    (context category : Option String) (rng : RNG) (e : Excuse) (r' : RNG)
    (hgen : generate ctx data mk language t fuel errorMessage context category rng =
      some (e, r')) : 1 ≤ e.quality_score ∧ e.quality_score ≤ 100 := by
  simp only [generate] at hgen
  rw [Option.bind_eq_some] at hgen
  obtain ⟨⟨c0, r0⟩, h0, hgen⟩ := hgen
  dsimp only at hgen
  rw [Option.bind_eq_some] at hgen
  obtain ⟨⟨pc, r1⟩, hp, hgen⟩ := hgen
  dsimp only at hgen
  rw [Option.bind_eq_some] at hgen
  obtain ⟨⟨pe, r2⟩, h1, hgen⟩ := hgen
  dsimp only at hgen
  rw [Option.bind_eq_some] at hgen
  obtain ⟨⟨sc, r3⟩, h2, hgen⟩ := hgen
  dsimp only at hgen
  rw [Option.bind_eq_some] at hgen
  obtain ⟨⟨se, r4⟩, h3, hgen⟩ := hgen
  dsimp only at hgen
  rw [Option.bind_eq_some] at hgen
  obtain ⟨⟨inten, r5⟩, h4, hgen⟩ := hgen
  dsimp only at hgen
  rw [Option.bind_eq_some] at hgen
  obtain ⟨⟨conn, r6⟩, h5, hgen⟩ := hgen
  dsimp only at hgen
  rw [Option.bind_eq_some] at hgen
  obtain ⟨⟨mph, r7⟩, h6, hgen⟩ := hgen
  dsimp only at hgen
  rw [Option.bind_eq_some] at hgen
  obtain ⟨⟨rec, r8⟩, h7, hgen⟩ := hgen
  dsimp only [RNG.next] at hgen
  rw [Option.some.injEq, Prod.mk.injEq] at hgen
  rw [← hgen.1]
  exact calculateQualityScore_bounds _ _

/-- **C8.** `_calculate_quality_score` always returns an integer in
`[1, 100]`, and hence so is the `quality_score` of every successfully
generated excuse. -/
theorem c8_quality_in_range :
    (∀ (text : List Char) (seed : Nat),
        1 ≤ calculateQualityScore text seed ∧ calculateQualityScore text seed ≤ 100) ∧
      ∀ (ctx : GenCtx) (data : Corpus) (mk : MarkovState) (language : String)
        (t fuel : Nat) (errorMessage : String) (context category : Option String)
        (rng : RNG) (q : Nat),
        (generate ctx data mk language t fuel errorMessage context category rng).map
            (fun p => p.1.quality_score) = some q →
          1 ≤ q ∧ q ≤ 100 := by
  refine ⟨calculateQualityScore_bounds, ?_⟩
  intro ctx data mk language t fuel errorMessage context category rng q h
  obtain ⟨⟨e, r'⟩, hgen, hq⟩ := Option.map_eq_some'.mp h
  rw [← hq]
  exact generate_quality_in_range ctx data mk language t fuel errorMessage context
    category rng e r' hgen

set_option maxRecDepth 40000 in
/-- Witness for C8 at a concrete successful `generate` call. -/
theorem c8_witness :
    (generate testCtx testCorpus emptyMarkov "en" 0 10 "" none none testRNG).map
        (fun p => p.1.quality_score) = some 10 ∧ 1 ≤ 10 ∧ (10 : Nat) ≤ 100 :=
  ⟨by decide, c8_quality_in_range.2 testCtx testCorpus emptyMarkov "en" 0 10 "" none
    none testRNG 10 (by decide)⟩

/-! ## Claim C2: `generate_batch` performs no distinctness filtering -/

set_option maxRecDepth 40000 in
/-- **C2 (code mismatch).** `generate_batch(2)` performs exactly 2
generation attempts (it has no distinct-text retry loop and no `10 × count`
attempt budget) and, when consecutive calls observe the same clock value
and sample-error draw, returns 2 results with only 1 distinct text — a
duplicate produced long before any `10 × count = 20` attempt budget could
be exhausted. -/
theorem c2_batch_duplicates :
    (generateBatch testCtx testCorpus emptyMarkov "en" (fun _ => 0) 10 2 testRNG).map
        (fun p => (p.1.length, (p.1.map Excuse.text).dedup.length)) = some (2, 1) ∧
      2 < 10 * 2 := by
  exact ⟨by decide, by decide⟩

end CosmicExcuse
